import Mathlib

/-!
# Settings panel script (`static/script.js`)

A shallow embedding of the client-side settings script: the colour normaliser
`normalizeColor`, the toast presenter `showToast`, and the five submission
operations.  JavaScript strings are sequences of UTF-16 code units.
-/

namespace TR

/-! ## Strings -/

/-- A JavaScript string value: its sequence of UTF-16 code units. -/
abbrev Str := List Nat

/-- UTF-16 encoding of one Unicode scalar value (one unit, or a surrogate pair). -/
def utf16Char (c : Char) : Str :=
  if c.toNat < 65536 then [c.toNat]
  else [55296 + (c.toNat - 65536) / 1024, 56320 + (c.toNat - 65536) % 1024]

/-- UTF-16 encoding of a list of scalar values. -/
def encode : List Char → Str
  | [] => []
  | c :: cs => utf16Char c ++ encode cs

/-- The JavaScript string denoted by a string literal of the source. -/
def utf16 (s : String) : Str := encode s.toList

/-- ECMAScript `WhiteSpace` and `LineTerminator` code units, the ones that
`String.prototype.trim` strips: TAB, LF, VT, FF, CR, SP, NBSP, U+1680,
U+2000..U+200A, LS, PS, U+202F, U+205F, U+3000 and U+FEFF. -/
def isWhiteSpace (c : Nat) : Bool :=
  c == 9 || c == 10 || c == 11 || c == 12 || c == 13 || c == 32 || c == 160 ||
  c == 5760 || (8192 ≤ c && c ≤ 8202) || c == 8232 || c == 8233 || c == 8239 ||
  c == 8287 || c == 12288 || c == 65279

/-- The method `String.prototype.trim`: strip white space from both ends. -/
def trim (s : Str) : Str :=
  (s.dropWhile isWhiteSpace).rdropWhile isWhiteSpace

/-- The method `String.prototype.startsWith` with a literal search string. -/
def startsWith (s p : Str) : Bool := p.isPrefixOf s

/-- The method `String.prototype.substring(n)` with one argument: the units
from index `n` on, none when `n` is past the end. -/
def substring (s : Str) (n : Nat) : Str := s.drop n

/-- Lower case of one Basic Latin code unit: `A`..`Z` to `a`..`z`. -/
def lowerUnit (c : Nat) : Nat :=
  if 65 ≤ c ∧ c ≤ 90 then c + 32 else c

/-- The method `String.prototype.toLowerCase` restricted to Basic Latin: `A`..`Z` become
`a`..`z`, every other code unit is kept.  On strings of code units below 128
this is exactly what the host computes. -/
def asciiToLowerCase (s : Str) : Str :=
  s.map lowerUnit

/-- One code unit matched by the class `[0-9a-f]` under the `i` flag: a digit,
`a`..`f`, or (case-insensitively) `A`..`F`. -/
def isHexDigit (c : Nat) : Bool :=
  (48 ≤ c && c ≤ 57) || (97 ≤ c && c ≤ 102) || (65 ≤ c && c ≤ 70)

/-- The test `/^[0-9a-f]{6}$/i.test(s)`: the whole string is six units of the class. -/
def hexSixTest (s : Str) : Bool :=
  s.length == 6 && s.all isHexDigit

/-! ## Colour normaliser -/

/-- The function `normalizeColor(color)` of the source (lines 31-53).  The host's
`String.prototype.toLowerCase` is the parameter `toLowerCase`. -/
def normalizeColor (toLowerCase : Str → Str) (color : Str) : Str :=
  if color.isEmpty then utf16 "#9B59B6"
  else
    let color := toLowerCase (trim color)
    if startsWith color (utf16 "#") then color
    else if startsWith color (utf16 "0x") then utf16 "#" ++ substring color 2
    else if color.length == 6 && hexSixTest color then utf16 "#" ++ color
    else utf16 "#9B59B6"

/-- What the proofs use of the host's `String.prototype.toLowerCase` on Basic
Latin.  Both facts hold of the ECMAScript function: on text of code units below
128 it maps `A`..`Z` to `a`..`z` and keeps the rest, and no lower-case mapping
produces one of `A`..`Z`, so its result holds none. -/
structure LawfulToLowerCase (lower : Str → Str) : Prop where
  ascii : ∀ s : Str, (∀ c ∈ s, c < 128) → lower s = asciiToLowerCase s
  noUpper : ∀ s : Str, ∀ c ∈ lower s, ¬ (65 ≤ c ∧ c ≤ 90)

/-- Stability facts about the host's `String.prototype.toLowerCase`, used for
normalising twice.  Each holds of the ECMAScript function: `#` is neither cased
nor case-ignorable, so in front of a text it is kept and does not change how the
text is mapped; a lowercased text holds no character that a second pass would
map, so each of its suffixes is kept as it is; and white space is uncased and
never the result of a mapping, so a text without white space at its ends stays
so. -/
structure StableToLowerCase (lower : Str → Str) extends LawfulToLowerCase lower : Prop where
  hash : ∀ s : Str, lower (35 :: s) = 35 :: lower s
  dropStable : ∀ (s : Str) (n : Nat), lower ((lower s).drop n) = (lower s).drop n
  trimStable : ∀ s : Str, trim s = s → trim (lower s) = lower s

/-- Canonical `#RRGGBB` form: seven units, `#` followed by six hexadecimal digits. -/
def isCanonical (s : Str) : Bool :=
  match s with
  | [] => false
  | c :: d => c == 35 && hexSixTest d

/-- A well-formed colour text: six hexadecimal digits, optionally preceded by
`#` or by `0x`. -/
def isWellFormed (t : Str) : Bool :=
  hexSixTest t || (startsWith t [35] && hexSixTest (t.drop 1)) ||
    (startsWith t [48, 120] && hexSixTest (t.drop 2))

/-- A string with no white space at either end. -/
def Trimmed (s : Str) : Prop :=
  (∀ c, s.head? = some c → isWhiteSpace c = false) ∧
  (∀ c, s.getLast? = some c → isWhiteSpace c = false)

/-- The reference normaliser, following the words of the specification
(section 4.1) in their order: trim and lowercase first, then the five cases. -/
def normalizeSpec (toLowerCase : Str → Str) (raw : Str) : Str :=
  let t := toLowerCase (trim raw)
  if t = [] then utf16 "#9B59B6"
  else if t.head? = some 35 then t
  else if t.take 2 = [48, 120] then 35 :: t.drop 2
  else if t.length = 6 ∧ ∀ c ∈ t, (48 ≤ c ∧ c ≤ 57) ∨ (97 ≤ c ∧ c ≤ 102) then 35 :: t
  else utf16 "#9B59B6"

/-! ## Toast presenter -/

/-- The part of the page that `showToast` touches: the text of `.toast-message`,
whether `#toast` carries the classes `error` and `show`, the class name of
`.toast-icon`, and the due times (ms) of the pending `setTimeout` callbacks. -/
structure Toast where
  textContent : Str
  errorClass : Bool
  iconClassName : Str
  showClass : Bool
  timers : List Nat
deriving DecidableEq

/-- The function `showToast(message, type = 'success')` called at time `now` (lines 2-22);
`type = none` is a call that omits the second argument. -/
def showToast (now : Nat) (message : Str) (type : Option Str) (t : Toast) : Toast :=
  let type := type.getD (utf16 "success")
  if type = utf16 "error" then
    Toast.mk message true (utf16 "toast-icon fas fa-exclamation-circle") true
      (t.timers ++ [now + 3000])
  else
    Toast.mk message false (utf16 "toast-icon fas fa-check-circle") true
      (t.timers ++ [now + 3000])

/-- The timer callback of line 20: `toast.classList.remove('show')`. -/
def hide (t : Toast) : Toast :=
  Toast.mk t.textContent t.errorClass t.iconClassName false t.timers

/-- The event loop run up to time `τ` with no further call: every pending timer
due by `τ` fires its callback and leaves the pending set. -/
def advanceTo (τ : Nat) (t : Toast) : Toast :=
  (t.timers.filter fun d => decide (d ≤ τ)).foldl (fun s _ => hide s)
    (Toast.mk t.textContent t.errorClass t.iconClassName t.showClass
      (t.timers.filter fun d => decide (τ < d)))

/-! ## Submission operations -/

/-- The values that the request bodies hold. -/
inductive JVal where
  | null
  | bool (b : Bool)
  | str (s : Str)
  | strs (xs : List Str)
deriving DecidableEq

/-- One call of `fetch`: the path, then method, headers and the fields of the
object given to `JSON.stringify`. -/
structure Request where
  url : Str
  method : Str
  headers : List (Str × Str)
  body : List (Str × JVal)
deriving DecidableEq

/-- What an operation does to the outside: a `fetch` call, a `showToast` call
(with its second argument if given), or `console.error(label, error)` with the
error recorded by its `message`. -/
inductive Effect where
  | fetch (r : Request)
  | toast (message : Str) (type : Option Str)
  | log (label : Str) (error : Str)
deriving DecidableEq

/-- The decoded response body as the operations read it: the truth value of
`data.success` and `data.message` (`none` when the field is absent). -/
structure Data where
  success : Bool
  message : Option Str
deriving DecidableEq

/-- How the awaited `fetch` and `response.json()` end: one of them throws an
error with the given `message`, or the body is decoded. -/
inductive Outcome where
  | threw (message : Str)
  | decoded (data : Data)
deriving DecidableEq

/-- The form fields the operations read. -/
structure Form where
  poemChannel : Str
  embedColor : Str
  showImage : Bool
  imageUrl : Str
  autoReact : Bool
  reactEmojis : Str
  ticketCategory : Str
  ticketLog : Str
  ticketAdmin : Str
deriving DecidableEq

/-- String concatenation with `data.message`: an absent field reads `undefined`. -/
def messageText (m : Option Str) : Str :=
  m.getD (utf16 "undefined")

/-- The headers object of every request. -/
def jsonHeaders : List (Str × Str) :=
  [(utf16 "Content-Type", utf16 "application/json")]

/-- The method `String.prototype.split(sep)` for a one-unit separator: the segments between
the occurrences of `sep`; the empty string gives one empty segment. -/
def split (sep : Nat) : Str → List Str
  | [] => [[]]
  | c :: cs =>
    if c = sep then [] :: split sep cs
    else (c :: (split sep cs).headD []) :: (split sep cs).tail

/-- The value `x || null` for a string `x`. -/
def orNull (x : Str) : JVal :=
  if x.isEmpty then JVal.null else JVal.str x

/-- The function `updatePoemChannel()` (lines 78-106). -/
def updatePoemChannel (form : Form) (net : Outcome) : List Effect :=
  let channelId := trim form.poemChannel
  if channelId.isEmpty then
    [Effect.toast (utf16 "⚠️ Please enter a channel ID") (some (utf16 "error"))]
  else
    Effect.fetch (Request.mk (utf16 "/api/config/poem_channel") (utf16 "POST") jsonHeaders
      [(utf16 "channel_id", JVal.str channelId)]) ::
    match net with
    | Outcome.decoded data =>
      if data.success then
        [Effect.toast (utf16 "✅ Poem channel updated successfully!") (some (utf16 "success"))]
      else
        [Effect.toast (utf16 "❌ " ++ messageText data.message) (some (utf16 "error"))]
    | Outcome.threw message =>
      [Effect.toast (utf16 "❌ Error: " ++ message) (some (utf16 "error")),
       Effect.log (utf16 "Error:") message]

/-- The function `updateColor()` (lines 109-132). -/
def updateColor (form : Form) (net : Outcome) : List Effect :=
  let color := form.embedColor
  Effect.fetch (Request.mk (utf16 "/api/config/color") (utf16 "POST") jsonHeaders
    [(utf16 "color", JVal.str color)]) ::
  match net with
  | Outcome.decoded data =>
    if data.success then
      [Effect.toast (utf16 "🎨 Color updated successfully!") none]
    else
      [Effect.toast (utf16 "❌ " ++ messageText data.message) (some (utf16 "error"))]
  | Outcome.threw message =>
    [Effect.toast (utf16 "❌ Error updating color") (some (utf16 "error")),
     Effect.log (utf16 "Error:") message]

/-- The function `updateImage()` (lines 135-162). -/
def updateImage (form : Form) (net : Outcome) : List Effect :=
  let showImage := form.showImage
  let imageUrl := form.imageUrl
  Effect.fetch (Request.mk (utf16 "/api/config/image") (utf16 "POST") jsonHeaders
    [(utf16 "show_image", JVal.bool showImage), (utf16 "image_url", JVal.str imageUrl)]) ::
  match net with
  | Outcome.decoded data =>
    if data.success then
      [Effect.toast (utf16 "🖼️ Image settings updated successfully!") none]
    else
      [Effect.toast (utf16 "❌ " ++ messageText data.message) (some (utf16 "error"))]
  | Outcome.threw message =>
    [Effect.toast (utf16 "❌ Error updating image settings") (some (utf16 "error")),
     Effect.log (utf16 "Error:") message]

/-- The emoji list of `updateReactions` (lines 167-170):
`value.split(',').map(e => e.trim()).filter(e => e.length > 0)`. -/
def parseEmojis (value : Str) : List Str :=
  ((split 44 value).map fun e => trim e).filter fun e => decide (e.length > 0)

/-- The function `updateReactions()` (lines 165-194). -/
def updateReactions (form : Form) (net : Outcome) : List Effect :=
  let autoReact := form.autoReact
  let emojis := parseEmojis form.reactEmojis
  Effect.fetch (Request.mk (utf16 "/api/config/reactions") (utf16 "POST") jsonHeaders
    [(utf16 "auto_react", JVal.bool autoReact), (utf16 "react_emojis", JVal.strs emojis)]) ::
  match net with
  | Outcome.decoded data =>
    if data.success then
      [Effect.toast (utf16 "❤️ Reactions updated successfully!") none]
    else
      [Effect.toast (utf16 "❌ " ++ messageText data.message) (some (utf16 "error"))]
  | Outcome.threw message =>
    [Effect.toast (utf16 "❌ Error updating reactions") (some (utf16 "error")),
     Effect.log (utf16 "Error:") message]

/-- Modelled from the spec: the statement that binds `categoryId` in
`updateTicketSettings` is cut off in the source, where line 194 keeps only its
ending `.trim();`.  Section 4.2 has the string fields trimmed, as lines 195-196
do for the two sibling fields. -/
def ticketCategoryId (form : Form) : Str :=
  trim form.ticketCategory

/-- The function `updateTicketSettings()` (lines 194-227).  The source text is
spliced: the binding of `categoryId` is taken from `ticketCategoryId`, the `try`
body is lines 198-217, and the `catch` handler is the complete one of lines
223-226 (the handler begun on line 219 breaks off inside its `showToast` call). -/
def updateTicketSettings (form : Form) (net : Outcome) : List Effect :=
  let categoryId := ticketCategoryId form
  let logChannelId := trim form.ticketLog
  let adminRoleId := trim form.ticketAdmin
  Effect.fetch (Request.mk (utf16 "/api/config/ticket") (utf16 "POST") jsonHeaders
    [(utf16 "category_id", orNull categoryId),
     (utf16 "log_channel_id", orNull logChannelId),
     (utf16 "admin_role_id", orNull adminRoleId)]) ::
  match net with
  | Outcome.decoded data =>
    if data.success then
      [Effect.toast (utf16 "🎫 Ticket settings updated successfully!") (some (utf16 "success"))]
    else
      [Effect.toast (utf16 "❌ " ++ messageText data.message) (some (utf16 "error"))]
  | Outcome.threw message =>
    [Effect.toast (utf16 "❌ Error updating ticket settings") (some (utf16 "error")),
     Effect.log (utf16 "Error:") message]

/-- The five submission operations. -/
inductive Op where
  | poemChannel
  | color
  | image
  | reactions
  | ticket
deriving DecidableEq

/-- The effects of one run of an operation. -/
def Op.run : Op → Form → Outcome → List Effect
  | Op.poemChannel => updatePoemChannel
  | Op.color => updateColor
  | Op.image => updateImage
  | Op.reactions => updateReactions
  | Op.ticket => updateTicketSettings

/-- The `fetch` calls among the effects, in order. -/
def requests (es : List Effect) : List Request :=
  es.filterMap fun e => match e with
    | Effect.fetch r => some r
    | _ => none

/-- The `showToast` calls among the effects, in order: message and type argument. -/
def toasts (es : List Effect) : List (Str × Option Str) :=
  es.filterMap fun e => match e with
    | Effect.toast m ty => some (m, ty)
    | _ => none

/-- The errors given to `console.error`, in order. -/
def logged (es : List Effect) : List Str :=
  es.filterMap fun e => match e with
    | Effect.log _ err => some err
    | _ => none

/-! ## Basic facts -/

theorem utf16_hash : utf16 "#" = [35] := by decide

theorem utf16_zero_x : utf16 "0x" = [48, 120] := by decide

theorem utf16_default : utf16 "#9B59B6" = [35, 57, 66, 53, 57, 66, 54] := by decide

theorem startsWith_hash (s : Str) : startsWith s [35] = true ↔ s.head? = some 35 := by
  cases s with
  | nil => simp [startsWith, List.isPrefixOf]
  | cons a t =>
    simp only [startsWith, List.isPrefixOf, List.head?_cons, Option.some.injEq,
      Bool.and_true, beq_iff_eq]
    exact eq_comm

theorem startsWith_zero_x (s : Str) : startsWith s [48, 120] = true ↔ s.take 2 = [48, 120] := by
  match s with
  | [] => simp [startsWith, List.isPrefixOf]
  | [a] => simp [startsWith, List.isPrefixOf]
  | a :: b :: t =>
    simp only [startsWith, List.isPrefixOf, List.take_succ_cons, List.take_zero,
      List.cons.injEq, and_true, Bool.and_true, Bool.and_eq_true, beq_iff_eq]
    constructor
    · rintro ⟨h1, h2⟩; exact ⟨h1.symm, h2.symm⟩
    · rintro ⟨h1, h2⟩; exact ⟨h1.symm, h2.symm⟩

theorem isHexDigit_of_not_upper (c : Nat) (h : ¬ (65 ≤ c ∧ c ≤ 90)) :
    isHexDigit c = true ↔ (48 ≤ c ∧ c ≤ 57) ∨ (97 ≤ c ∧ c ≤ 102) := by
  simp only [isHexDigit, Bool.or_eq_true, Bool.and_eq_true, decide_eq_true_eq]
  omega

theorem dropWhile_eq_self_of_head (p : Nat → Bool) (s : Str)
    (h : ∀ c, s.head? = some c → p c = false) : s.dropWhile p = s := by
  cases s with
  | nil => rfl
  | cons a t =>
    have := h a rfl
    simp [List.dropWhile, this]

theorem rdropWhile_eq_self_of_last (p : Nat → Bool) (s : Str)
    (h : ∀ c, s.getLast? = some c → p c = false) : s.rdropWhile p = s := by
  rw [List.rdropWhile_eq_self_iff]
  intro hl
  have := h (s.getLast hl) (List.getLast?_eq_getLast s hl)
  simp [this]

theorem trim_of_trimmed (s : Str) (h : Trimmed s) : trim s = s := by
  unfold trim
  rw [dropWhile_eq_self_of_head _ s h.1, rdropWhile_eq_self_of_last _ s h.2]

theorem trimmed_trim (s : Str) : Trimmed (trim s) := by
  unfold trim
  constructor
  · intro c hc
    obtain ⟨t, ht⟩ := List.rdropWhile_prefix isWhiteSpace (s.dropWhile isWhiteSpace)
    have h2 : (s.dropWhile isWhiteSpace).head? = some c := by
      rw [← ht]
      cases hr : (s.dropWhile isWhiteSpace).rdropWhile isWhiteSpace with
      | nil => rw [hr] at hc; simp at hc
      | cons a r => rw [hr] at hc; simpa using hc
    have h3 := List.head?_dropWhile_not isWhiteSpace s
    rw [h2] at h3
    exact h3
  · intro c hc
    have hne : (s.dropWhile isWhiteSpace).rdropWhile isWhiteSpace ≠ [] := by
      intro h0; rw [h0] at hc; simp at hc
    have h3 := List.rdropWhile_last_not isWhiteSpace (s.dropWhile isWhiteSpace) hne
    rw [List.getLast?_eq_getLast _ hne] at hc
    simp only [Option.some.injEq] at hc
    rw [hc] at h3
    simpa using h3

theorem trimmed_of_trim_eq (s : Str) (h : trim s = s) : Trimmed s := by
  rw [← h]; exact trimmed_trim s

theorem trim_trim (s : Str) : trim (trim s) = trim s :=
  trim_of_trimmed _ (trimmed_trim s)

theorem lowerUnit_not_upper (c : Nat) : ¬ (65 ≤ lowerUnit c ∧ lowerUnit c ≤ 90) := by
  unfold lowerUnit; split_ifs <;> omega

theorem lowerUnit_idem (c : Nat) : lowerUnit (lowerUnit c) = lowerUnit c := by
  unfold lowerUnit; split_ifs <;> omega

theorem isWhiteSpace_lowerUnit (c : Nat) (h : isWhiteSpace c = false) :
    isWhiteSpace (lowerUnit c) = false := by
  unfold lowerUnit
  split_ifs with hc
  · simp only [isWhiteSpace, Bool.or_eq_false_iff, Bool.and_eq_false_iff, beq_eq_false_iff_ne,
      decide_eq_false_iff_not]
    omega
  · exact h

theorem asciiToLowerCase_lawful : LawfulToLowerCase asciiToLowerCase where
  ascii := fun _ _ => rfl
  noUpper := by
    intro s c hc
    simp only [asciiToLowerCase, List.mem_map] at hc
    obtain ⟨a, -, rfl⟩ := hc
    exact lowerUnit_not_upper a

theorem asciiToLowerCase_stable : StableToLowerCase asciiToLowerCase where
  toLawfulToLowerCase := asciiToLowerCase_lawful
  hash := by
    intro s
    simp [asciiToLowerCase, lowerUnit]
  dropStable := by
    intro s n
    simp only [asciiToLowerCase, ← List.map_drop, List.map_map]
    apply List.map_congr_left
    intro a _
    exact lowerUnit_idem a
  trimStable := by
    intro s hs
    have ht := trimmed_of_trim_eq s hs
    apply trim_of_trimmed
    constructor
    · intro c hc
      simp only [asciiToLowerCase, List.head?_map, Option.map_eq_some'] at hc
      obtain ⟨a, ha, rfl⟩ := hc
      exact isWhiteSpace_lowerUnit a (ht.1 a ha)
    · intro c hc
      simp only [asciiToLowerCase, List.getLast?_map, Option.map_eq_some'] at hc
      obtain ⟨a, ha, rfl⟩ := hc
      exact isWhiteSpace_lowerUnit a (ht.2 a ha)

/-- On text whose trimmed form is Basic Latin, any lawful `toLowerCase` gives
the result of the Basic Latin one. -/
theorem normalizeColor_ascii (lower : Str → Str) (h : LawfulToLowerCase lower) (x : Str)
    (hx : ∀ c ∈ trim x, c < 128) :
    normalizeColor lower x = normalizeColor asciiToLowerCase x := by
  unfold normalizeColor
  rw [h.ascii _ hx]

theorem getLast?_cons_of_getLast? (a : Nat) (s : Str) (c : Nat) (h : s.getLast? = some c) :
    (a :: s).getLast? = some c := by
  cases s with
  | nil => simp at h
  | cons b t => rw [List.getLast?_cons_cons]; exact h

/-- A string `#s` whose tail is already lower case and does not end in white
space is returned unchanged. -/
theorem normalizeColor_fixed (lower : Str → Str) (h : StableToLowerCase lower) (s : Str)
    (hs : lower s = s) (hl : ∀ c, s.getLast? = some c → isWhiteSpace c = false) :
    normalizeColor lower (35 :: s) = 35 :: s := by
  have htrim : trim (35 :: s) = 35 :: s := by
    apply trim_of_trimmed
    constructor
    · intro c hc
      simp only [List.head?_cons, Option.some.injEq] at hc
      subst hc; decide
    · intro c hc
      cases s with
      | nil =>
        simp only [List.getLast?_singleton, Option.some.injEq] at hc
        subst hc; decide
      | cons b t =>
        rw [List.getLast?_cons_cons] at hc
        exact hl c hc
  unfold normalizeColor
  simp only [List.isEmpty_cons, Bool.false_eq_true, if_false, htrim, h.hash, hs, utf16_hash]
  rw [if_pos ((startsWith_hash (35 :: s)).2 rfl)]

/-- Shape of every result: the default, or `#s` with `s` stable under lowercasing,
free of `A`..`Z`, and not ending in white space. -/
theorem normalizeColor_shape (lower : Str → Str) (h : StableToLowerCase lower) (x : Str) :
    normalizeColor lower x = utf16 "#9B59B6" ∨
    ∃ s : Str, normalizeColor lower x = 35 :: s ∧ lower s = s ∧
      (∀ c, s.getLast? = some c → isWhiteSpace c = false) ∧
      (∀ c ∈ s, ¬ (65 ≤ c ∧ c ≤ 90)) := by
  unfold normalizeColor
  by_cases hx : x.isEmpty = true
  · left; simp [hx]
  · simp only [hx, Bool.false_eq_true, if_false, utf16_hash, utf16_zero_x, substring]
    have hup := h.noUpper (trim x)
    have htr : Trimmed (lower (trim x)) :=
      trimmed_of_trim_eq _ (h.trimStable _ (trim_trim x))
    have hdrop := h.dropStable (trim x)
    generalize lower (trim x) = t at hup htr hdrop
    by_cases h1 : startsWith t [35] = true
    · right
      rw [if_pos h1]
      rw [startsWith_hash] at h1
      cases t with
      | nil => simp at h1
      | cons a s =>
        simp only [List.head?_cons, Option.some.injEq] at h1
        subst h1
        refine ⟨s, rfl, ?_, ?_, ?_⟩
        · have := hdrop 1
          simpa using this
        · intro c hc
          exact htr.2 c (getLast?_cons_of_getLast? _ _ _ hc)
        · intro c hc
          exact hup c (List.mem_cons_of_mem _ hc)
    · rw [if_neg h1]
      by_cases h2 : startsWith t [48, 120] = true
      · right
        rw [if_pos h2]
        rw [startsWith_zero_x] at h2
        match t, h2 with
        | a :: b :: s, h2 =>
          refine ⟨s, rfl, ?_, ?_, ?_⟩
          · have := hdrop 2
            simpa using this
          · intro c hc
            exact htr.2 c (getLast?_cons_of_getLast? _ _ _ (getLast?_cons_of_getLast? _ _ _ hc))
          · intro c hc
            exact hup c (List.mem_cons_of_mem _ (List.mem_cons_of_mem _ hc))
      · rw [if_neg h2]
        by_cases h3 : (t.length == 6 && hexSixTest t) = true
        · right
          rw [if_pos h3]
          refine ⟨t, rfl, ?_, htr.2, hup⟩
          have := hdrop 0
          simpa using this
        · left
          rw [if_neg h3]

theorem split_ne_nil (sep : Nat) (s : Str) : split sep s ≠ [] := by
  cases s with
  | nil => simp [split]
  | cons c cs =>
    unfold split
    split_ifs <;> simp

theorem intercalate_split (sep : Nat) (s : Str) : List.intercalate [sep] (split sep s) = s := by
  induction s with
  | nil => simp [split, List.intercalate]
  | cons c cs ih =>
    unfold split
    have hne := split_ne_nil sep cs
    cases hsp : split sep cs with
    | nil => exact absurd hsp hne
    | cons seg segs =>
      rw [hsp] at ih
      split_ifs with hc
      · subst hc
        simp only [List.intercalate, List.intersperse_cons_cons, List.flatten_cons,
          List.nil_append, List.singleton_append] at ih ⊢
        rw [ih]
      · simp only [List.headD_cons, List.tail_cons]
        rw [← ih]
        cases segs with
        | nil => simp [List.intercalate]
        | cons a b => simp [List.intercalate]

theorem not_mem_of_mem_split (sep : Nat) (s : Str) : ∀ seg ∈ split sep s, sep ∉ seg := by
  induction s with
  | nil => simp [split]
  | cons c cs ih =>
    unfold split
    have hne := split_ne_nil sep cs
    cases hsp : split sep cs with
    | nil => exact absurd hsp hne
    | cons seg0 segs =>
      rw [hsp] at ih
      split_ifs with hc
      · intro seg hseg
        simp only [List.mem_cons] at hseg
        rcases hseg with rfl | hseg
        · simp
        · exact ih seg (List.mem_cons.2 hseg)
      · intro seg hseg
        simp only [List.headD_cons, List.tail_cons, List.mem_cons] at hseg
        rcases hseg with rfl | hseg
        · intro hmem
          simp only [List.mem_cons] at hmem
          rcases hmem with h1 | h1
          · exact hc h1.symm
          · exact ih seg0 (List.mem_cons_self _ _) h1
        · exact ih seg (List.mem_cons_of_mem _ hseg)

theorem mem_of_mem_trim (s : Str) (c : Nat) (h : c ∈ trim s) : c ∈ s :=
  (List.dropWhile_suffix isWhiteSpace).subset
    ((List.rdropWhile_prefix isWhiteSpace _).subset h)

theorem trim_eq_nil_iff (s : Str) : trim s = [] ↔ ∀ c ∈ s, isWhiteSpace c = true := by
  unfold trim
  rw [List.rdropWhile_eq_nil_iff]
  constructor
  · intro h
    have h2 : s.dropWhile isWhiteSpace = [] := by
      cases hd : s.dropWhile isWhiteSpace with
      | nil => rfl
      | cons a t =>
        have h3 := List.head?_dropWhile_not isWhiteSpace s
        rw [hd] at h3 h
        have h4 := h a (List.mem_cons_self _ _)
        simp only [List.head?_cons] at h3
        rw [h4] at h3
        exact absurd h3 (by simp)
    exact List.dropWhile_eq_nil_iff.1 h2
  · intro h
    rw [List.dropWhile_eq_nil_iff.2 h]
    simp

theorem isEmpty_trim_of_not_blank (s : Str) (h : ¬ ∀ c ∈ s, isWhiteSpace c = true) :
    (trim s).isEmpty = false := by
  cases hh : trim s with
  | nil => exact absurd ((trim_eq_nil_iff s).1 hh) h
  | cons a t => rfl

theorem success_ne_error : utf16 "success" ≠ utf16 "error" := by decide

theorem showToast_showClass (now : Nat) (m : Str) (ty : Option Str) (st : Toast) :
    (showToast now m ty st).showClass = true := by
  simp only [showToast]; split_ifs <;> rfl

theorem showToast_textContent (now : Nat) (m : Str) (ty : Option Str) (st : Toast) :
    (showToast now m ty st).textContent = m := by
  simp only [showToast]; split_ifs <;> rfl

theorem showToast_timers_eq (now : Nat) (m : Str) (ty : Option Str) (st : Toast) :
    (showToast now m ty st).timers = st.timers ++ [now + 3000] := by
  simp only [showToast]; split_ifs <;> rfl

theorem showToast_errorClass (now : Nat) (m : Str) (ty : Option Str) (st : Toast) :
    (showToast now m ty st).errorClass = decide (ty = some (utf16 "error")) := by
  unfold showToast
  cases ty with
  | none =>
    simp only [Option.getD_none, if_neg success_ne_error]
    simp
  | some a =>
    simp only [Option.getD_some]
    split_ifs with h <;> simp [h]

theorem foldl_hide (l : List Nat) (s : Toast) :
    (l.foldl (fun s _ => hide s) s).textContent = s.textContent ∧
    (l.foldl (fun s _ => hide s) s).timers = s.timers ∧
    (l.foldl (fun s _ => hide s) s).showClass = (l.isEmpty && s.showClass) := by
  induction l generalizing s with
  | nil => simp
  | cons a l ih =>
    simp only [List.foldl_cons, List.isEmpty_cons, Bool.false_and]
    obtain ⟨h1, h2, h3⟩ := ih (hide s)
    refine ⟨h1, h2, ?_⟩
    rw [h3]
    simp [hide]

theorem advanceTo_textContent (τ : Nat) (t : Toast) :
    (advanceTo τ t).textContent = t.textContent :=
  (foldl_hide _ _).1

theorem advanceTo_timers (τ : Nat) (t : Toast) :
    (advanceTo τ t).timers = t.timers.filter fun d => decide (τ < d) :=
  (foldl_hide _ _).2.1

theorem advanceTo_showClass (τ : Nat) (t : Toast) :
    (advanceTo τ t).showClass =
      ((t.timers.filter fun d => decide (d ≤ τ)).isEmpty && t.showClass) :=
  (foldl_hide _ _).2.2

/-! ## Claims about `normalizeColor` -/

/-- C1: for every input string `normalizeColor` equals the reference function of
section 4.1 (trim and lowercase, then: empty gives the default, a leading `#`
returns the text, a leading `0x` is replaced by `#`, six characters of
`[0-9a-f]` get a `#` in front, anything else gives the default), and the five
listed examples evaluate as stated. -/
theorem normalizeColor_eq_normalizeSpec (lower : Str → Str) (h : LawfulToLowerCase lower) :
    (∀ x : Str, normalizeColor lower x = normalizeSpec lower x) ∧
    normalizeColor lower (utf16 "") = utf16 "#9B59B6" ∧
    normalizeColor lower (utf16 "0xAABBCC") = utf16 "#aabbcc" ∧
    normalizeColor lower (utf16 "aabbcc") = utf16 "#aabbcc" ∧
    normalizeColor lower (utf16 "#123456") = utf16 "#123456" ∧
    normalizeColor lower (utf16 "zz") = utf16 "#9B59B6" := by
  refine ⟨?_, ?_, ?_, ?_, ?_, ?_⟩
  · intro x
    have hnil : lower [] = [] := by
      rw [h.ascii [] (by simp)]; rfl
    unfold normalizeColor normalizeSpec
    by_cases hx : x = []
    · subst hx
      simp [trim, hnil]
    · have hx2 : x.isEmpty = false := by cases x <;> simp_all
      simp only [hx2, Bool.false_eq_true, if_false, utf16_hash, utf16_zero_x, substring]
      have hup := h.noUpper (trim x)
      generalize lower (trim x) = t at hup
      by_cases ht : t = []
      · subst ht
        simp [startsWith, hexSixTest]
      · simp only [ht, if_false]
        by_cases h1 : t.head? = some 35
        · simp [h1, (startsWith_hash t).2 h1]
        · have h1b : startsWith t [35] = false := by
            rw [← Bool.not_eq_true, startsWith_hash]; exact h1
          simp only [h1b, h1, Bool.false_eq_true, if_false]
          by_cases h2 : t.take 2 = [48, 120]
          · simp [h2, (startsWith_zero_x t).2 h2]
          · have h2b : startsWith t [48, 120] = false := by
              rw [← Bool.not_eq_true, startsWith_zero_x]; exact h2
            simp only [h2b, h2, Bool.false_eq_true, if_false]
            have hex : (t.length == 6 && hexSixTest t) = true ↔
                (t.length = 6 ∧ ∀ c ∈ t, (48 ≤ c ∧ c ≤ 57) ∨ (97 ≤ c ∧ c ≤ 102)) := by
              simp only [hexSixTest, Bool.and_eq_true, beq_iff_eq, List.all_eq_true]
              constructor
              · rintro ⟨h6, -, hall⟩
                exact ⟨h6, fun c hc => (isHexDigit_of_not_upper c (hup c hc)).1 (hall c hc)⟩
              · rintro ⟨h6, hall⟩
                exact ⟨h6, h6, fun c hc => (isHexDigit_of_not_upper c (hup c hc)).2 (hall c hc)⟩
            by_cases h3 : t.length = 6 ∧ ∀ c ∈ t, (48 ≤ c ∧ c ≤ 57) ∨ (97 ≤ c ∧ c ≤ 102)
            · rw [if_pos (hex.2 h3), if_pos h3]; rfl
            · rw [if_neg (fun hc => h3 (hex.1 hc)), if_neg h3]
  · rw [normalizeColor_ascii lower h _ (by decide)]; decide
  · rw [normalizeColor_ascii lower h _ (by decide)]; decide
  · rw [normalizeColor_ascii lower h _ (by decide)]; decide
  · rw [normalizeColor_ascii lower h _ (by decide)]; decide
  · rw [normalizeColor_ascii lower h _ (by decide)]; decide

/-- C3: for every input string the result of `normalizeColor` is non-empty and
its first code unit is `#`. -/
theorem normalizeColor_starts_with_hash (lower : Str → Str) (x : Str) :
    normalizeColor lower x ≠ [] ∧ (normalizeColor lower x).head? = some 35 := by
  unfold normalizeColor
  simp only [utf16_hash, utf16_default, utf16_zero_x]
  split_ifs with h0 h1 h2 h3
  · simp
  · rw [startsWith_hash] at h1
    refine ⟨?_, h1⟩
    intro hc; rw [hc] at h1; simp at h1
  · simp
  · simp
  · simp

/-- C2 as stated fails: the default `#9B59B6` returned for the empty input is
itself normalised to `#9b59b6`, so normalising twice differs from normalising
once. -/
theorem normalizeColor_not_idempotent :
    normalizeColor asciiToLowerCase (utf16 "") = utf16 "#9B59B6" ∧
    normalizeColor asciiToLowerCase (normalizeColor asciiToLowerCase (utf16 "")) =
      utf16 "#9b59b6" ∧
    normalizeColor asciiToLowerCase (normalizeColor asciiToLowerCase (utf16 "")) ≠
      normalizeColor asciiToLowerCase (utf16 "") := by
  decide

/-- C2, amended: normalising twice equals normalising once for every input
whose result is not the fallback default `#9B59B6`; when the result is the
default, normalising it again gives the lower-case `#9b59b6`. -/
theorem normalizeColor_twice (lower : Str → Str) (h : StableToLowerCase lower) (x : Str) :
    normalizeColor lower (normalizeColor lower x) =
      if normalizeColor lower x = utf16 "#9B59B6" then utf16 "#9b59b6"
      else normalizeColor lower x := by
  rcases normalizeColor_shape lower h x with hd | ⟨s, hs, hlow, hlast, hup⟩
  · rw [if_pos hd, hd, normalizeColor_ascii lower h.toLawfulToLowerCase _ (by decide)]
    decide
  · have hne : normalizeColor lower x ≠ utf16 "#9B59B6" := by
      rw [hs, utf16_default]
      intro hc
      simp only [List.cons.injEq, true_and] at hc
      subst hc
      exact hup 66 (by simp) (by omega)
    rw [if_neg hne, hs]
    exact normalizeColor_fixed lower h s hlow hlast

/-- Witness for `normalizeColor_twice` at the input `0xAABBCC`. -/
theorem normalizeColor_twice_witness :
    normalizeColor asciiToLowerCase (normalizeColor asciiToLowerCase (utf16 "0xAABBCC")) =
      if normalizeColor asciiToLowerCase (utf16 "0xAABBCC") = utf16 "#9B59B6"
      then utf16 "#9b59b6"
      else normalizeColor asciiToLowerCase (utf16 "0xAABBCC") :=
  normalizeColor_twice asciiToLowerCase asciiToLowerCase_stable (utf16 "0xAABBCC")

/-- Witness for `normalizeColor_eq_normalizeSpec` with the Basic Latin lowercasing. -/
theorem normalizeColor_eq_normalizeSpec_witness :
    normalizeColor asciiToLowerCase (utf16 " 0xAABBCC ") =
      normalizeSpec asciiToLowerCase (utf16 " 0xAABBCC ") :=
  (normalizeColor_eq_normalizeSpec asciiToLowerCase asciiToLowerCase_lawful).1 (utf16 " 0xAABBCC ")

/-- C4 as stated fails: `#zz` is not a well-formed colour, yet it is returned
unchanged, which is neither canonical nor the default; likewise `0x12` gives `#12`. -/
theorem normalizeColor_not_canonical :
    isWellFormed (asciiToLowerCase (trim (utf16 "#zz"))) = false ∧
    normalizeColor asciiToLowerCase (utf16 "#zz") = utf16 "#zz" ∧
    isCanonical (normalizeColor asciiToLowerCase (utf16 "#zz")) = false ∧
    normalizeColor asciiToLowerCase (utf16 "#zz") ≠ utf16 "#9B59B6" ∧
    isWellFormed (asciiToLowerCase (trim (utf16 "0x12"))) = false ∧
    normalizeColor asciiToLowerCase (utf16 "0x12") = utf16 "#12" ∧
    isCanonical (normalizeColor asciiToLowerCase (utf16 "0x12")) = false := by
  decide

theorem hexSixTest_head (a : Nat) (s : Str) (h : hexSixTest (a :: s) = true) :
    isHexDigit a = true := by
  simp only [hexSixTest, List.all_cons, Bool.and_eq_true] at h
  exact h.2.1

/-- C4, amended: when the trimmed, lowercased input is a well-formed colour the
result is the canonical `#` followed by its six digits; when it is not
well-formed and does not begin with `#` or `0x`, the result is the default
`#9B59B6`, itself canonical. -/
theorem normalizeColor_canonical (lower : Str → Str) (h : LawfulToLowerCase lower) (x : Str) :
    (isWellFormed (lower (trim x)) = true →
      normalizeColor lower x = 35 :: (lower (trim x)).drop ((lower (trim x)).length - 6) ∧
      isCanonical (normalizeColor lower x) = true) ∧
    (isWellFormed (lower (trim x)) = false → startsWith (lower (trim x)) (utf16 "#") = false →
      startsWith (lower (trim x)) (utf16 "0x") = false →
      normalizeColor lower x = utf16 "#9B59B6") ∧
    isCanonical (utf16 "#9B59B6") = true := by
  have hnil : lower [] = [] := by
    rw [h.ascii [] (by simp)]; rfl
  refine ⟨?_, ?_, by decide⟩
  · intro hwf
    by_cases hx : x = []
    · subst hx
      simp [trim, hnil, isWellFormed, hexSixTest, startsWith] at hwf
    · have hx2 : x.isEmpty = false := by cases x <;> simp_all
      unfold normalizeColor
      simp only [hx2, Bool.false_eq_true, if_false, utf16_hash, utf16_zero_x, substring]
      generalize lower (trim x) = t at hwf
      by_cases h1 : startsWith t [35] = true
      · rw [if_pos h1]
        have h1c := (startsWith_hash t).1 h1
        cases t with
        | nil => simp at h1c
        | cons a s =>
          simp only [List.head?_cons, Option.some.injEq] at h1c
          subst h1c
          have hs : hexSixTest s = true := by
            simp only [isWellFormed, Bool.or_eq_true, Bool.and_eq_true] at hwf
            rcases hwf with (hw | hw) | hw
            · have := hexSixTest_head _ _ hw
              simp [isHexDigit] at this
            · simpa using hw.2
            · have := (startsWith_zero_x _).1 hw.1
              cases s <;> simp at this
          have hlen : s.length = 6 := by
            simp only [hexSixTest, Bool.and_eq_true, beq_iff_eq] at hs
            exact hs.1
          refine ⟨?_, ?_⟩
          · simp [hlen]
          · simp [isCanonical, hs]
      · rw [if_neg h1]
        by_cases h2 : startsWith t [48, 120] = true
        · rw [if_pos h2]
          have h2c := (startsWith_zero_x t).1 h2
          match t, h2c with
          | a :: b :: s, h2c =>
            simp only [List.take_succ_cons, List.take_zero, List.cons.injEq, and_true] at h2c
            obtain ⟨rfl, rfl⟩ := h2c
            have hs : hexSixTest s = true := by
              simp only [isWellFormed, Bool.or_eq_true, Bool.and_eq_true] at hwf
              rcases hwf with (hw | hw) | hw
              · have := hexSixTest_head _ _ hw
                simp only [hexSixTest, List.all_cons, Bool.and_eq_true] at hw
                have := hw.2.2.1
                simp [isHexDigit] at this
              · simp [h1] at hw
              · simpa using hw.2
            have hlen : s.length = 6 := by
              simp only [hexSixTest, Bool.and_eq_true, beq_iff_eq] at hs
              exact hs.1
            refine ⟨?_, ?_⟩
            · simp [hlen]
            · simp [isCanonical, hs]
        · rw [if_neg h2]
          have hs : hexSixTest t = true := by
            simp only [isWellFormed, Bool.or_eq_true, Bool.and_eq_true] at hwf
            rcases hwf with (hw | hw) | hw
            · exact hw
            · exact absurd hw.1 h1
            · exact absurd hw.1 h2
          have hlen : t.length = 6 := by
            simp only [hexSixTest, Bool.and_eq_true, beq_iff_eq] at hs
            exact hs.1
          have h3 : (t.length == 6 && hexSixTest t) = true := by simp [hlen, hs]
          rw [if_pos h3]
          refine ⟨?_, ?_⟩
          · simp [hlen]
          · simp [isCanonical, hs]
  · intro hwf h1 h2
    unfold normalizeColor
    rw [utf16_hash] at h1
    rw [utf16_zero_x] at h2
    simp only [utf16_hash, utf16_zero_x, h1, h2, Bool.false_eq_true, if_false]
    have h3 : hexSixTest (lower (trim x)) = false := by
      simp only [isWellFormed, Bool.or_eq_false_iff] at hwf
      exact hwf.1.1
    simp [h3]

/-- Witness for `normalizeColor_canonical` at the inputs `0xAABBCC` (well-formed)
and `zz` (malformed, no prefix). -/
theorem normalizeColor_canonical_witness :
    (isWellFormed (asciiToLowerCase (trim (utf16 "0xAABBCC"))) = true ∧
      normalizeColor asciiToLowerCase (utf16 "0xAABBCC") = utf16 "#aabbcc" ∧
      isCanonical (normalizeColor asciiToLowerCase (utf16 "0xAABBCC")) = true) ∧
    (isWellFormed (asciiToLowerCase (trim (utf16 "zz"))) = false ∧
      normalizeColor asciiToLowerCase (utf16 "zz") = utf16 "#9B59B6") :=
  ⟨⟨by decide,
    ((normalizeColor_canonical asciiToLowerCase asciiToLowerCase_lawful
      (utf16 "0xAABBCC")).1 (by decide)).1.trans (by decide),
    ((normalizeColor_canonical asciiToLowerCase asciiToLowerCase_lawful
      (utf16 "0xAABBCC")).1 (by decide)).2⟩,
   ⟨by decide,
    (normalizeColor_canonical asciiToLowerCase asciiToLowerCase_lawful
      (utf16 "zz")).2.1 (by decide) (by decide) (by decide)⟩⟩

/-! ## Claims about the submission operations -/

/-- C5: the list sent as `react_emojis` is the sequence of the comma-separated
segments of the field text, each trimmed, with the segments that are empty after
trimming removed, in order; no element is empty, starts or ends with white
space, or holds a comma; and `😀, 😂 ,,🔥` gives the three emojis. -/
theorem updateReactions_emojis :
    (∀ (form : Form) (net : Outcome),
      requests (updateReactions form net) =
        [Request.mk (utf16 "/api/config/reactions") (utf16 "POST") jsonHeaders
          [(utf16 "auto_react", JVal.bool form.autoReact),
           (utf16 "react_emojis", JVal.strs (parseEmojis form.reactEmojis))]]) ∧
    (∀ text : Str, ∃ segs : List Str,
      List.intercalate [44] segs = text ∧ (∀ seg ∈ segs, 44 ∉ seg) ∧
      parseEmojis text = (segs.map trim).filter (fun e => decide (e ≠ [])) ∧
      ∀ e ∈ parseEmojis text, e ≠ [] ∧ Trimmed e ∧ 44 ∉ e) ∧
    parseEmojis (utf16 "😀, 😂 ,,🔥") = [utf16 "😀", utf16 "😂", utf16 "🔥"] := by
  refine ⟨?_, ?_, by decide⟩
  · intro form net
    cases net <;> simp only [updateReactions, requests] <;> (try split_ifs) <;> rfl
  · intro text
    refine ⟨split 44 text, intercalate_split 44 text, not_mem_of_mem_split 44 text, ?_, ?_⟩
    · unfold parseEmojis
      congr 1
      funext e
      cases e <;> simp
    · intro e he
      simp only [parseEmojis, List.mem_filter, List.mem_map, decide_eq_true_eq] at he
      obtain ⟨⟨seg, hseg, rfl⟩, hlen⟩ := he
      refine ⟨?_, trimmed_trim seg, ?_⟩
      · intro h0; rw [h0] at hlen; simp at hlen
      · intro hmem
        exact not_mem_of_mem_split 44 text seg hseg (mem_of_mem_trim seg 44 hmem)

/-- C6: a poem-channel value that is empty or all white space gives no request
and exactly one `showToast` call, with the literal warning and type `error`;
any other value gives exactly one POST to `/api/config/poem_channel` whose body
holds the trimmed, non-empty value as `channel_id`. -/
theorem updatePoemChannel_validation (form : Form) (net : Outcome) :
    ((∀ c ∈ form.poemChannel, isWhiteSpace c = true) →
      updatePoemChannel form net =
        [Effect.toast (utf16 "⚠️ Please enter a channel ID") (some (utf16 "error"))]) ∧
    (¬ (∀ c ∈ form.poemChannel, isWhiteSpace c = true) →
      trim form.poemChannel ≠ [] ∧
      requests (updatePoemChannel form net) =
        [Request.mk (utf16 "/api/config/poem_channel") (utf16 "POST") jsonHeaders
          [(utf16 "channel_id", JVal.str (trim form.poemChannel))]]) := by
  constructor
  · intro h
    have h0 := (trim_eq_nil_iff _).2 h
    simp [updatePoemChannel, h0]
  · intro h
    have h0 : trim form.poemChannel ≠ [] := fun hc => h ((trim_eq_nil_iff _).1 hc)
    have h1 : (trim form.poemChannel).isEmpty = false := by
      cases hh : trim form.poemChannel with
      | nil => exact absurd hh h0
      | cons a t => rfl
    refine ⟨h0, ?_⟩
    cases net <;>
      simp only [updatePoemChannel, h1, requests, Bool.false_eq_true, if_false] <;>
      (try split_ifs) <;> rfl

/-- Witness for `updatePoemChannel_validation`: a blank field and the field ` 123 `. -/
theorem updatePoemChannel_validation_witness :
    updatePoemChannel (Form.mk (utf16 "  ") [] false [] false [] [] [] [])
        (Outcome.threw []) =
      [Effect.toast (utf16 "⚠️ Please enter a channel ID") (some (utf16 "error"))] ∧
    requests (updatePoemChannel (Form.mk (utf16 " 123 ") [] false [] false [] [] [] [])
        (Outcome.decoded (Data.mk true none))) =
      [Request.mk (utf16 "/api/config/poem_channel") (utf16 "POST") jsonHeaders
        [(utf16 "channel_id", JVal.str (utf16 "123"))]] :=
  ⟨(updatePoemChannel_validation (Form.mk (utf16 "  ") [] false [] false [] [] [] [])
      (Outcome.threw [])).1 (by decide),
   ((updatePoemChannel_validation (Form.mk (utf16 " 123 ") [] false [] false [] [] [] [])
      (Outcome.decoded (Data.mk true none))).2 (by decide)).2.trans (by decide)⟩

/-- C7: for each of the five operations and every decoded body (for
`updatePoemChannel` the channel field is not blank, since otherwise no request
is sent): with `success` true the operation makes exactly one `showToast` call,
whose type is not `error`, so the `error` class is off; with `success` false and
`message` the string `X` it makes exactly one call, of type `error`, whose text
holds `X`. -/
theorem run_decoded_toast (op : Op) (form : Form) (data : Data)
    (hfield : op = Op.poemChannel → ¬ ∀ c ∈ form.poemChannel, isWhiteSpace c = true) :
    (data.success = true →
      ∃ m ty, toasts (op.run form (Outcome.decoded data)) = [(m, ty)] ∧
        ty ≠ some (utf16 "error") ∧
        ∀ now st, (showToast now m ty st).errorClass = false) ∧
    (data.success = false → ∀ X, data.message = some X →
      ∃ m, toasts (op.run form (Outcome.decoded data)) = [(m, some (utf16 "error"))] ∧
        X <:+: m ∧
        ∀ now st, (showToast now m (some (utf16 "error")) st).errorClass = true) := by
  have hs : some (utf16 "success") ≠ some (utf16 "error") := by
    intro h; exact success_ne_error (Option.some.inj h)
  have key : ∀ okText okType,
      okType ≠ some (utf16 "error") →
      toasts (op.run form (Outcome.decoded data)) =
        (if data.success then [(okText, okType)]
         else [(utf16 "❌ " ++ messageText data.message, some (utf16 "error"))]) →
      (data.success = true →
        ∃ m ty, toasts (op.run form (Outcome.decoded data)) = [(m, ty)] ∧
          ty ≠ some (utf16 "error") ∧
          ∀ now st, (showToast now m ty st).errorClass = false) ∧
      (data.success = false → ∀ X, data.message = some X →
        ∃ m, toasts (op.run form (Outcome.decoded data)) = [(m, some (utf16 "error"))] ∧
          X <:+: m ∧
          ∀ now st, (showToast now m (some (utf16 "error")) st).errorClass = true) := by
    intro okText okType hty htoasts
    constructor
    · intro hsucc
      refine ⟨okText, okType, ?_, hty, ?_⟩
      · rw [htoasts, if_pos hsucc]
      · intro now st
        rw [showToast_errorClass]
        simpa using hty
    · intro hsucc X hX
      refine ⟨utf16 "❌ " ++ X, ?_, ?_, ?_⟩
      · rw [htoasts, hsucc, hX]; rfl
      · exact (List.suffix_append _ _).isInfix
      · intro now st
        rw [showToast_errorClass]
        simp
  cases op with
  | poemChannel =>
    have h1 : (trim form.poemChannel).isEmpty = false :=
      isEmpty_trim_of_not_blank _ (hfield rfl)
    apply key (utf16 "✅ Poem channel updated successfully!") (some (utf16 "success")) hs
    simp only [Op.run, updatePoemChannel, h1, toasts, Bool.false_eq_true, if_false]
    split_ifs <;> rfl
  | color =>
    apply key (utf16 "🎨 Color updated successfully!") none (by simp)
    simp only [Op.run, updateColor, toasts]
    split_ifs <;> rfl
  | image =>
    apply key (utf16 "🖼️ Image settings updated successfully!") none (by simp)
    simp only [Op.run, updateImage, toasts]
    split_ifs <;> rfl
  | reactions =>
    apply key (utf16 "❤️ Reactions updated successfully!") none (by simp)
    simp only [Op.run, updateReactions, toasts]
    split_ifs <;> rfl
  | ticket =>
    apply key (utf16 "🎫 Ticket settings updated successfully!") (some (utf16 "success")) hs
    simp only [Op.run, updateTicketSettings, toasts]
    split_ifs <;> rfl

/-- Witness for `run_decoded_toast`: `updatePoemChannel` on a successful body and
`updateColor` on a failed body with message `Invalid color`. -/
theorem run_decoded_toast_witness :
    (∃ m ty, toasts (Op.run Op.poemChannel
        (Form.mk (utf16 "123") [] false [] false [] [] [] [])
        (Outcome.decoded (Data.mk true none))) = [(m, ty)] ∧
      ty ≠ some (utf16 "error") ∧
      ∀ now st, (showToast now m ty st).errorClass = false) ∧
    (∃ m, toasts (Op.run Op.color
        (Form.mk [] (utf16 "#aabbcc") false [] false [] [] [] [])
        (Outcome.decoded (Data.mk false (some (utf16 "Invalid color"))))) =
        [(m, some (utf16 "error"))] ∧
      utf16 "Invalid color" <:+: m ∧
      ∀ now st, (showToast now m (some (utf16 "error")) st).errorClass = true) :=
  ⟨(run_decoded_toast Op.poemChannel (Form.mk (utf16 "123") [] false [] false [] [] [] [])
      (Data.mk true none) (fun _ => by decide)).1 rfl,
   (run_decoded_toast Op.color (Form.mk [] (utf16 "#aabbcc") false [] false [] [] [] [])
      (Data.mk false (some (utf16 "Invalid color"))) (fun h => absurd h (by decide))).2
      rfl _ rfl⟩

theorem orNull_trim (field : Str) :
    ((∀ c ∈ field, isWhiteSpace c = true) → orNull (trim field) = JVal.null) ∧
    (¬ (∀ c ∈ field, isWhiteSpace c = true) →
      trim field ≠ [] ∧ orNull (trim field) = JVal.str (trim field)) ∧
    orNull (trim field) ≠ JVal.str [] := by
  refine ⟨?_, ?_, ?_⟩
  · intro h
    rw [(trim_eq_nil_iff field).2 h]; rfl
  · intro h
    have h0 : trim field ≠ [] := fun hc => h ((trim_eq_nil_iff _).1 hc)
    refine ⟨h0, ?_⟩
    cases hh : trim field with
    | nil => exact absurd hh h0
    | cons a t => rfl
  · cases hh : trim field with
    | nil => simp [orNull]
    | cons a t => simp [orNull]

/-- C8: in the ticket-settings request body each of `category_id`,
`log_channel_id` and `admin_role_id` is `null` when its form field is empty or
all white space, and otherwise the trimmed, non-empty text of the field; it is
never the empty string. -/
theorem updateTicketSettings_body (form : Form) (net : Outcome) :
    ∃ v1 v2 v3 : JVal,
      requests (updateTicketSettings form net) =
        [Request.mk (utf16 "/api/config/ticket") (utf16 "POST") jsonHeaders
          [(utf16 "category_id", v1), (utf16 "log_channel_id", v2),
           (utf16 "admin_role_id", v3)]] ∧
      ∀ p ∈ [(form.ticketCategory, v1), (form.ticketLog, v2), (form.ticketAdmin, v3)],
        ((∀ c ∈ p.1, isWhiteSpace c = true) → p.2 = JVal.null) ∧
        (¬ (∀ c ∈ p.1, isWhiteSpace c = true) →
          trim p.1 ≠ [] ∧ p.2 = JVal.str (trim p.1)) ∧
        p.2 ≠ JVal.str [] := by
  refine ⟨orNull (trim form.ticketCategory), orNull (trim form.ticketLog),
    orNull (trim form.ticketAdmin), ?_, ?_⟩
  · cases net <;>
      simp only [updateTicketSettings, ticketCategoryId, requests] <;>
      (try split_ifs) <;> rfl
  · intro p hp
    simp only [List.mem_cons, List.mem_singleton, List.not_mem_nil, or_false] at hp
    rcases hp with rfl | rfl | rfl
    · exact orNull_trim form.ticketCategory
    · exact orNull_trim form.ticketLog
    · exact orNull_trim form.ticketAdmin

/-- Witness for `updateTicketSettings_body`: a blank category, and the log
channel ` 42 `, give `null` and `42`. -/
theorem updateTicketSettings_body_witness :
    requests (updateTicketSettings
        (Form.mk [] [] false [] false [] (utf16 "  ") (utf16 " 42 ") [])
        (Outcome.decoded (Data.mk true none))) =
      [Request.mk (utf16 "/api/config/ticket") (utf16 "POST") jsonHeaders
        [(utf16 "category_id", JVal.null), (utf16 "log_channel_id", JVal.str (utf16 "42")),
         (utf16 "admin_role_id", JVal.null)]] := by
  obtain ⟨v1, v2, v3, hreq, hv⟩ := updateTicketSettings_body
    (Form.mk [] [] false [] false [] (utf16 "  ") (utf16 " 42 ") [])
    (Outcome.decoded (Data.mk true none))
  have h1 := (hv (utf16 "  ", v1) (by simp)).1
    (show ∀ c ∈ utf16 "  ", isWhiteSpace c = true by decide)
  have h2 := ((hv (utf16 " 42 ", v2) (by simp)).2.1
    (show ¬ ∀ c ∈ utf16 " 42 ", isWhiteSpace c = true by decide)).2
  have h3 := (hv ([], v3) (by simp)).1
    (show ∀ c ∈ ([] : Str), isWhiteSpace c = true by decide)
  simp only at h1 h2 h3
  rw [hreq, h1, h2, h3]
  decide

/-- C9 as stated fails: when the request of `updateColor` throws with the
description `Failed to fetch`, the toast text is the fixed `❌ Error updating
color`, which does not hold the description. -/
theorem updateColor_failure_toast :
    toasts (Op.run Op.color (Form.mk [] (utf16 "#aabbcc") false [] false [] [] [] [])
        (Outcome.threw (utf16 "Failed to fetch"))) =
      [(utf16 "❌ Error updating color", some (utf16 "error"))] ∧
    ¬ (utf16 "Failed to fetch" <:+: utf16 "❌ Error updating color") := by
  decide

/-- C9, amended: when the request or the decoding throws an error with
description `D` (for `updatePoemChannel` the channel field is not blank, since
otherwise no request is sent), each operation makes exactly one `showToast`
call, of type `error`, and logs the error; for `updatePoemChannel` the text is
`❌ Error: ` followed by `D`, so it holds `D`; for `updateColor`, `updateImage`,
`updateReactions` and `updateTicketSettings` the text is fixed, the same for
every `D`. -/
theorem run_threw_toast (op : Op) (form : Form) (D : Str)
    (hfield : op = Op.poemChannel → ¬ ∀ c ∈ form.poemChannel, isWhiteSpace c = true) :
    ∃ m, toasts (op.run form (Outcome.threw D)) = [(m, some (utf16 "error"))] ∧
      logged (op.run form (Outcome.threw D)) = [D] ∧
      (∀ now st, (showToast now m (some (utf16 "error")) st).errorClass = true) ∧
      (m = match op with
        | Op.poemChannel => utf16 "❌ Error: " ++ D
        | Op.color => utf16 "❌ Error updating color"
        | Op.image => utf16 "❌ Error updating image settings"
        | Op.reactions => utf16 "❌ Error updating reactions"
        | Op.ticket => utf16 "❌ Error updating ticket settings") ∧
      (op = Op.poemChannel → D <:+: m) := by
  have herr : ∀ (m : Str) now st,
      (showToast now m (some (utf16 "error")) st).errorClass = true := by
    intro m now st
    rw [showToast_errorClass]; simp
  cases op with
  | poemChannel =>
    have h1 : (trim form.poemChannel).isEmpty = false :=
      isEmpty_trim_of_not_blank _ (hfield rfl)
    refine ⟨utf16 "❌ Error: " ++ D, ?_, ?_, herr _, rfl,
      fun _ => (List.suffix_append _ _).isInfix⟩
    · simp only [Op.run, updatePoemChannel, h1, toasts, Bool.false_eq_true, if_false]; rfl
    · simp only [Op.run, updatePoemChannel, h1, logged, Bool.false_eq_true, if_false]; rfl
  | color =>
    exact ⟨utf16 "❌ Error updating color", rfl, rfl, herr _, rfl, fun h => by simp at h⟩
  | image =>
    exact ⟨utf16 "❌ Error updating image settings", rfl, rfl, herr _, rfl, fun h => by simp at h⟩
  | reactions =>
    exact ⟨utf16 "❌ Error updating reactions", rfl, rfl, herr _, rfl, fun h => by simp at h⟩
  | ticket =>
    exact ⟨utf16 "❌ Error updating ticket settings", rfl, rfl, herr _, rfl, fun h => by simp at h⟩

/-- Witness for `run_threw_toast`: `updatePoemChannel` with channel `123` and a
request that throws `Failed to fetch`. -/
theorem run_threw_toast_witness :
    ∃ m, toasts (Op.run Op.poemChannel (Form.mk (utf16 "123") [] false [] false [] [] [] [])
        (Outcome.threw (utf16 "Failed to fetch"))) = [(m, some (utf16 "error"))] ∧
      logged (Op.run Op.poemChannel (Form.mk (utf16 "123") [] false [] false [] [] [] [])
        (Outcome.threw (utf16 "Failed to fetch"))) = [utf16 "Failed to fetch"] ∧
      m = utf16 "❌ Error: " ++ utf16 "Failed to fetch" ∧
      utf16 "Failed to fetch" <:+: m := by
  obtain ⟨m, h1, h2, -, h4, h5⟩ := run_threw_toast Op.poemChannel
    (Form.mk (utf16 "123") [] false [] false [] [] [] []) (utf16 "Failed to fetch")
    (fun _ => by decide)
  exact ⟨m, h1, h2, h4, h5 rfl⟩

/-! ## Claim about the toast timers -/

/-- C10: every `showToast` call shows the toast with its message and adds a hide
timer due 3000 ms later, keeping the earlier timers; after a call at `t1` and a
second call at `t2` with `t1 < t2 < t1 + 3000`, the toast holds the second
message and is visible exactly until `t1 + 3000`, when the first timer hides it,
that is for less than 3000 ms; after a single call at `t` with no earlier timer
pending, the toast is visible exactly until `t + 3000`. -/
theorem showToast_hide_timers :
    (∀ (now : Nat) (m : Str) (ty : Option Str) (st : Toast),
      (showToast now m ty st).showClass = true ∧
      (showToast now m ty st).textContent = m ∧
      (showToast now m ty st).timers = st.timers ++ [now + 3000]) ∧
    (∀ (t1 t2 : Nat) (m1 m2 : Str) (ty1 ty2 : Option Str) (st : Toast),
      (∀ d ∈ st.timers, d ≤ t1) → t1 < t2 → t2 < t1 + 3000 →
      (t1 + 3000) - t2 < 3000 ∧
      ∀ τ, t2 ≤ τ →
        (advanceTo τ (showToast t2 m2 ty2 (advanceTo t2
          (showToast t1 m1 ty1 (advanceTo t1 st))))).textContent = m2 ∧
        (advanceTo τ (showToast t2 m2 ty2 (advanceTo t2
          (showToast t1 m1 ty1 (advanceTo t1 st))))).showClass = decide (τ < t1 + 3000)) ∧
    (∀ (t : Nat) (m : Str) (ty : Option Str) (st : Toast),
      (∀ d ∈ st.timers, d ≤ t) →
      ∀ τ, t ≤ τ →
        (advanceTo τ (showToast t m ty (advanceTo t st))).textContent = m ∧
        (advanceTo τ (showToast t m ty (advanceTo t st))).showClass =
          decide (τ < t + 3000)) := by
  have hclear : ∀ (t : Nat) (st : Toast), (∀ d ∈ st.timers, d ≤ t) →
      (advanceTo t st).timers = [] := by
    intro t st h
    rw [advanceTo_timers, List.filter_eq_nil_iff]
    intro d hd
    have := h d hd
    simp only [decide_eq_true_eq]
    omega
  refine ⟨?_, ?_, ?_⟩
  · intro now m ty st
    exact ⟨showToast_showClass now m ty st, showToast_textContent now m ty st,
      showToast_timers_eq now m ty st⟩
  · intro t1 t2 m1 m2 ty1 ty2 st hst h12 h21
    refine ⟨by omega, ?_⟩
    intro τ hτ
    have e1 : (showToast t1 m1 ty1 (advanceTo t1 st)).timers = [t1 + 3000] := by
      rw [showToast_timers_eq, hclear t1 st hst]; rfl
    have e2 : (advanceTo t2 (showToast t1 m1 ty1 (advanceTo t1 st))).timers = [t1 + 3000] := by
      rw [advanceTo_timers, e1]
      simp [h21]
    have e3 : (showToast t2 m2 ty2 (advanceTo t2
        (showToast t1 m1 ty1 (advanceTo t1 st)))).timers = [t1 + 3000, t2 + 3000] := by
      rw [showToast_timers_eq, e2]; rfl
    constructor
    · rw [advanceTo_textContent, showToast_textContent]
    · rw [advanceTo_showClass, showToast_showClass, e3]
      by_cases hlt : τ < t1 + 3000
      · have h1 : ¬ (t1 + 3000 ≤ τ) := by omega
        have h2 : ¬ (t2 + 3000 ≤ τ) := by omega
        simp [List.filter, h1, h2, hlt]
      · have h1 : t1 + 3000 ≤ τ := by omega
        simp [List.filter, h1, hlt]
  · intro t m ty st hst τ hτ
    have e1 : (showToast t m ty (advanceTo t st)).timers = [t + 3000] := by
      rw [showToast_timers_eq, hclear t st hst]; rfl
    constructor
    · rw [advanceTo_textContent, showToast_textContent]
    · rw [advanceTo_showClass, showToast_showClass, e1]
      by_cases hlt : τ < t + 3000
      · have h1 : ¬ (t + 3000 ≤ τ) := by omega
        simp [List.filter, h1, hlt]
      · have h1 : t + 3000 ≤ τ := by omega
        simp [List.filter, h1, hlt]

/-- Witness for `showToast_hide_timers`: from a hidden toast, calls at 0 ms and
1000 ms; at 2999 ms the second message is visible, at 3000 ms it is hidden with
its own timer still pending. -/
theorem showToast_hide_timers_witness :
    (advanceTo 2999 (showToast 1000 (utf16 "second") none (advanceTo 1000
      (showToast 0 (utf16 "first") none (advanceTo 0
        (Toast.mk [] false [] false [])))))).showClass = true ∧
    (advanceTo 3000 (showToast 1000 (utf16 "second") none (advanceTo 1000
      (showToast 0 (utf16 "first") none (advanceTo 0
        (Toast.mk [] false [] false [])))))).showClass = false ∧
    (advanceTo 3000 (showToast 1000 (utf16 "second") none (advanceTo 1000
      (showToast 0 (utf16 "first") none (advanceTo 0
        (Toast.mk [] false [] false [])))))).textContent = utf16 "second" ∧
    (advanceTo 3000 (showToast 1000 (utf16 "second") none (advanceTo 1000
      (showToast 0 (utf16 "first") none (advanceTo 0
        (Toast.mk [] false [] false [])))))).timers = [4000] ∧
    (advanceTo 2999 (showToast 0 (utf16 "first") none (advanceTo 0
      (Toast.mk [] false [] false [])))).showClass = true ∧
    (advanceTo 3000 (showToast 0 (utf16 "first") none (advanceTo 0
      (Toast.mk [] false [] false [])))).showClass = false :=
  ⟨((showToast_hide_timers.2.1 0 1000 (utf16 "first") (utf16 "second") none none
      (Toast.mk [] false [] false []) (by decide) (by decide) (by decide)).2 2999
      (by decide)).2.trans (by decide),
   ((showToast_hide_timers.2.1 0 1000 (utf16 "first") (utf16 "second") none none
      (Toast.mk [] false [] false []) (by decide) (by decide) (by decide)).2 3000
      (by decide)).2.trans (by decide),
   ((showToast_hide_timers.2.1 0 1000 (utf16 "first") (utf16 "second") none none
      (Toast.mk [] false [] false []) (by decide) (by decide) (by decide)).2 3000
      (by decide)).1,
   by decide,
   ((showToast_hide_timers.2.2 0 (utf16 "first") none
      (Toast.mk [] false [] false []) (by decide)) 2999 (by decide)).2.trans (by decide),
   ((showToast_hide_timers.2.2 0 (utf16 "first") none
      (Toast.mk [] false [] false []) (by decide)) 3000 (by decide)).2.trans (by decide)⟩

end TR
